import Mathlib

/-!
Verification of the SimplesVet document-to-record extraction pipeline
(`src/scrapper/pdf_converter.py` and `src/scrapper/venda_extractor.py`).

Strings are modelled as lists of characters (`PyStr`); cells extracted from a
PDF table are `Option PyStr` (pdfplumber emits `None` for merged/absent cells).
Python string operations used by the source (`lower`, `strip`, `in`,
`replace`, `split`) are modelled explicitly below.
-/

/-- A Python string, modelled as its list of characters. -/
abbrev PyStr := List Char

/-- Injection of Lean string literals into the model. -/
def py (s : String) : PyStr := s.toList

/-- Whitespace characters removed by Python `str.strip()` (ASCII subset). -/
def isWs (c : Char) : Bool :=
  c == ' ' || c == '\t' || c == '\n' || c == '\r'

/-- Python `str.lower()` on one character, for the ASCII letters and the
Latin-1 uppercase letters that occur in this vendor's Portuguese reports. -/
def pyLowerChar (c : Char) : Char :=
  match c with
  | 'A' => 'a' | 'B' => 'b' | 'C' => 'c' | 'D' => 'd' | 'E' => 'e'
  | 'F' => 'f' | 'G' => 'g' | 'H' => 'h' | 'I' => 'i' | 'J' => 'j'
  | 'K' => 'k' | 'L' => 'l' | 'M' => 'm' | 'N' => 'n' | 'O' => 'o'
  | 'P' => 'p' | 'Q' => 'q' | 'R' => 'r' | 'S' => 's' | 'T' => 't'
  | 'U' => 'u' | 'V' => 'v' | 'W' => 'w' | 'X' => 'x' | 'Y' => 'y'
  | 'Z' => 'z'
  | 'À' => 'à' | 'Á' => 'á' | 'Â' => 'â' | 'Ã' => 'ã' | 'Ç' => 'ç'
  | 'É' => 'é' | 'Ê' => 'ê' | 'Í' => 'í' | 'Ó' => 'ó' | 'Ô' => 'ô'
  | 'Õ' => 'õ' | 'Ú' => 'ú' | 'Ü' => 'ü'
  | c => c

/-- Python `str.lower()`. -/
def pyLower (s : PyStr) : PyStr := s.map pyLowerChar

/-- Removes trailing whitespace (the right half of Python `str.strip()`). -/
def dropTrailingWs : PyStr → PyStr
  | [] => []
  | c :: rest =>
    if (dropTrailingWs rest).isEmpty && isWs c then []
    else c :: dropTrailingWs rest

/-- Python `str.strip()`. -/
def pyStrip (s : PyStr) : PyStr := dropTrailingWs (s.dropWhile isWs)

/-- Does `pat` match at the head of `s`? (helper for the substring test). -/
def matchesAt : PyStr → PyStr → Bool
  | [], _ => true
  | _ :: _, [] => false
  | a :: as, b :: bs => a == b && matchesAt as bs

/-- Python substring containment `pat in s`. -/
def hasSub (pat : PyStr) (s : PyStr) : Bool :=
  match s with
  | [] => pat.isEmpty
  | _ :: rest => matchesAt pat s || hasSub pat rest

/-- Python `str.replace(pat, rep)` (all occurrences, left to right);
`pat` is nonempty at every call site in the source. -/
def replaceAll (pat rep : PyStr) : PyStr → PyStr
  | [] => []
  | c :: rest =>
    if !pat.isEmpty && pat.isPrefixOf (c :: rest) then
      rep ++ replaceAll pat rep (rest.drop (pat.length - 1))
    else
      c :: replaceAll pat rep rest
termination_by l => l.length
decreasing_by
  · simp only [List.length_cons]
    have := List.length_drop (pat.length - 1) rest
    omega
  · simp

/-- Python `text.split(chr(10))`: split on the newline character, keeping
empty pieces. -/
def splitOnNl : PyStr → List PyStr
  | [] => [[]]
  | c :: rest =>
    if c == '\n' then [] :: splitOnNl rest
    else
      match splitOnNl rest with
      | h :: t => (c :: h) :: t
      | [] => [[c]]

/-! ### Date validation (`PDFConverter._is_valid_date`) -/

/-- ASCII decimal digit (the only characters matched by the `\d` of the
source's date pattern on this data). -/
def pyIsDigit (c : Char) : Bool :=
  c == '0' || c == '1' || c == '2' || c == '3' || c == '4' ||
  c == '5' || c == '6' || c == '7' || c == '8' || c == '9'

/-- Numeric value of a decimal digit character. -/
def digitVal (c : Char) : Nat := c.toNat - 48

/-- Exactly the shape `dd/mm/yyyy`: two digits, slash, two digits, slash,
four digits, nothing else. -/
def strictShape : PyStr → Bool
  | [a, b, s1, c, d, s2, e, f, g, h] =>
    pyIsDigit a && pyIsDigit b && s1 == '/' && pyIsDigit c && pyIsDigit d &&
    s2 == '/' && pyIsDigit e && pyIsDigit f && pyIsDigit g && pyIsDigit h
  | _ => false

/-- The source's regex (anchored with a dollar) also accepts the shape
followed by one final newline, because a dollar in Python also matches just
before a trailing newline. -/
def shapeWithNl : PyStr → Bool
  | [a, b, s1, c, d, s2, e, f, g, h, n] =>
    strictShape [a, b, s1, c, d, s2, e, f, g, h] && n == '\n'
  | _ => false

/-- The guard given by the source's regex match on the date pattern. -/
def datePatternMatch (s : PyStr) : Bool := strictShape s || shapeWithNl s

/-- Gregorian leap year, as used by Python's calendar. -/
def isLeapYear (y : Nat) : Bool :=
  y % 4 == 0 && (y % 100 != 0 || y % 400 == 0)

/-- Number of days of a month. -/
def daysInMonth (m y : Nat) : Nat :=
  if m == 2 then (if isLeapYear y then 29 else 28)
  else if m == 4 || m == 6 || m == 9 || m == 11 then 30
  else 31

/-- Is `d`/`m`/`y` a real calendar date accepted by Python's `datetime`
(year at least 1)? -/
def validDMY (d m y : Nat) : Bool :=
  decide (1 ≤ y ∧ 1 ≤ m ∧ m ≤ 12 ∧ 1 ≤ d ∧ d ≤ daysInMonth m y)

/-- Calendar validity of a string of the strict shape (digits read off
positionally); any other shape yields false. -/
def calendarOf : PyStr → Bool
  | [a, b, _, c, d, _, e, f, g, h] =>
    validDMY (digitVal a * 10 + digitVal b) (digitVal c * 10 + digitVal d)
      (digitVal e * 1000 + digitVal f * 100 + digitVal g * 10 + digitVal h)
  | _ => false

/-- The source's `datetime.strptime(date_str, dd/mm/yyyy)` call, modelled on
the inputs that can reach it (the regex guard has already matched): it
succeeds exactly on a string of the strict ten-character shape encoding a
real calendar date; in particular a trailing newline makes it raise
(unconverted data remains). -/
def strptimeOk (s : PyStr) : Bool := strictShape s && calendarOf s

/-- `PDFConverter._is_valid_date`: blank check, then the regex guard, then
the `strptime` parse. -/
def is_valid_date (s : PyStr) : Bool :=
  if s.isEmpty || (pyStrip s).isEmpty then false
  else if !datePatternMatch s then false
  else strptimeOk s

/-- The claim's description of date validity: strict two-digit/two-digit/
four-digit slash pattern, and a real calendar date. -/
def specDateValid (s : PyStr) : Bool := strictShape s && calendarOf s

/-! ### Data model: cells, fields, records, column maps -/

/-- One cell of a pdfplumber table: absent (`None`) or a string. -/
abbrev Cell := Option PyStr

/-- Python truthiness of a cell (`None` and the empty string are falsy). -/
def cellTruthy : Cell → Bool
  | none => false
  | some s => !s.isEmpty

/-- The semantic fields of an appointment record, in the fixed order of the
source's header-matching chain. -/
inductive SemField where
  | cliente | animal | tipo_atendimento | data | hora | status
deriving DecidableEq

/-- One extracted appointment (all fields strings, as in the source dict). -/
structure Record where
  veterinario : PyStr
  cliente : PyStr
  animal : PyStr
  tipo_atendimento : PyStr
  data : PyStr
  hora : PyStr
  status : PyStr
deriving DecidableEq

/-- The source's `col_indices` dict: semantic field to column index. -/
def ColMap := SemField → Option Nat

/-- The empty column map. -/
def emptyColMap : ColMap := fun _ => none

/-- Dict assignment `col_indices[f] = i`. -/
def setField (m : ColMap) (f : SemField) (i : Nat) : ColMap :=
  fun g => if g = f then some i else m g

/-- The source's header-matching `elif` chain on one lower-cased header
cell: which field does this cell's text select, if any? -/
def headerFieldOf (h : PyStr) : Option SemField :=
  if hasSub (py "cliente") h then some .cliente
  else if hasSub (py "animal") h then some .animal
  else if hasSub (py "tipo") h || hasSub (py "atendimento") h then
    some .tipo_atendimento
  else if hasSub (py "data") h then some .data
  else if hasSub (py "hora") h then some .hora
  else if hasSub (py "status") h then some .status
  else none

/-- One iteration of the source's header loop: skip falsy cells, otherwise
strip, lower, and assign the matched field (overwriting). -/
def applyHeaderCell (i : Nat) (c : Cell) (m : ColMap) : ColMap :=
  match c with
  | none => m
  | some s =>
    if s.isEmpty then m
    else
      match headerFieldOf (pyLower (pyStrip s)) with
      | some f => setField m f i
      | none => m

/-- The source's header loop from a given starting index. -/
def buildColIndicesFrom : Nat → List Cell → ColMap → ColMap
  | _, [], m => m
  | i, c :: cs, m => buildColIndicesFrom (i + 1) cs (applyHeaderCell i c m)

/-- `col_indices` built from one header row (`_parse_simplesvet_table`,
column-identification loop). -/
def buildColIndices (headers : List Cell) : ColMap :=
  buildColIndicesFrom 0 headers emptyColMap

/-! ### Row access and classification (`_get_cell_value`, data-row loop) -/

/-- `PDFConverter._get_cell_value`: total cell lookup; a missing index, an
out-of-range index or a `None` cell yield the empty string, otherwise the
cell's text trimmed of surrounding whitespace. -/
def get_cell_value (row : List Cell) (col_index : Option Nat) : PyStr :=
  match col_index with
  | none => []
  | some i =>
    if row.length ≤ i then []
    else
      match row.getD i none with
      | none => []
      | some s => pyStrip s

/-- The fixed denylist of annotation/footnote phrases skipped by the
data-row loop of `_parse_simplesvet_table`. -/
def denylist : List PyStr :=
  [py "paga na hora", py "valor normal", py "valor", py "observ",
   py "v4", py "v5", py "queixa:", py "contato de quem",
   py "endereço completo", py "sem custo", py "2° dose", py "dose v"]

/-- Is a cell blank in the sense of the source's all-blank row test
(`not cell or str(cell).strip() == ''`)? -/
def cellBlank : Cell → Bool
  | none => true
  | some s => (pyStrip s).isEmpty

/-- The source's `first_cell`: the stripped text of the row's first cell
when that cell is truthy, otherwise the empty string. -/
def rowFirstCell : List Cell → PyStr
  | (some s) :: _ => if s.isEmpty then [] else pyStrip s
  | _ => []

/-- The raw (unstripped) text of the row's first cell, empty when absent. -/
def rowFirstCellRaw : List Cell → PyStr
  | (some s) :: _ => s
  | _ => []

/-- The `appointment` dict built by the data-row loop of
`_parse_simplesvet_table`, before validation. -/
def mkAppointment (cm : ColMap) (veterinario : PyStr) (row : List Cell) :
    Record :=
  { veterinario := veterinario
    cliente := get_cell_value row (cm .cliente)
    animal := get_cell_value row (cm .animal)
    tipo_atendimento := get_cell_value row (cm .tipo_atendimento)
    data := get_cell_value row (cm .data)
    hora := get_cell_value row (cm .hora)
    status := get_cell_value row (cm .status) }

/-- The body of the data-row loop of `_parse_simplesvet_table` for one row:
skip all-blank rows, skip denylisted annotation rows, build the appointment
dict, require a valid date, require a non-blank client or animal. -/
def classifyRow (cm : ColMap) (veterinario : PyStr) (row : List Cell) :
    Option Record :=
  if row.isEmpty || row.all cellBlank then none
  else if denylist.any (fun p => hasSub p (pyLower (rowFirstCell row))) then
    none
  else if !is_valid_date (mkAppointment cm veterinario row).data then none
  else if !(mkAppointment cm veterinario row).cliente.isEmpty ||
      !(mkAppointment cm veterinario row).animal.isEmpty then
    some (mkAppointment cm veterinario row)
  else none

/-! ### Header resolution and table parsing (`_parse_simplesvet_table`) -/

/-- The source's header-row test: some truthy cell of the row whose
lower-cased text contains the keyword for the client field. -/
def rowHasClienteB (row : List Cell) : Bool :=
  row.any fun c =>
    match c with
    | none => false
    | some s => !s.isEmpty && hasSub (py "cliente") (pyLower s)

/-- The source's header-search loop: first row (top to bottom, indices from
the given start) passing the header-row test, together with its index. -/
def findHeaderFrom : Nat → List (List Cell) → Option (Nat × List Cell)
  | _, [] => none
  | i, r :: rs =>
    if rowHasClienteB r then some (i, r) else findHeaderFrom (i + 1) rs

/-- `PDFConverter._parse_simplesvet_table`: guard short tables, resolve the
header row, build the column map, classify every row after the header. -/
def parse_simplesvet_table (table : List (List Cell)) (veterinario : PyStr) :
    List Record :=
  if table.length < 2 then []
  else
    match findHeaderFrom 0 table with
    | none => []
    | some (hIdx, headers) =>
      (table.drop (hIdx + 1)).filterMap
        (classifyRow (buildColIndices headers) veterinario)

/-! ### Veterinarian labels and page traversal
(`_extract_veterinario_names`, `_extract_appointments_from_pdf`) -/

/-- Is this character cased, for Python's `str.isupper` (ASCII letters plus
the Latin-1 letters of Portuguese reports)? -/
def isCasedChar (c : Char) : Bool :=
  c.isUpper || c.isLower || ('À' ≤ c && c ≤ 'Þ' && c != '×') ||
  ('à' ≤ c && c ≤ 'ÿ' && c != '÷')

/-- Is this character lowercase cased? -/
def isLowerCased (c : Char) : Bool :=
  c.isLower || ('à' ≤ c && c ≤ 'ÿ' && c != '÷')

/-- Python `str.isupper`: at least one cased character and no lowercase
cased character. -/
def pyIsUpperStr (l : PyStr) : Bool :=
  l.any isCasedChar && l.all (fun c => !isLowerCased c)

/-- The keywords excluding a line from being taken as a veterinarian name. -/
def vetExcludeKws : List PyStr :=
  [py "cliente", py "animal", py "data", py "hora", py "status", py "agenda"]

/-- `PDFConverter._extract_veterinario_names`: split the page text on
newlines; keep each stripped line that is all-uppercase, longer than five
characters and free of the field-label keywords. -/
def extract_veterinario_names (text : PyStr) : List PyStr :=
  (splitOnNl text).filterMap fun line =>
    let l := pyStrip line
    if pyIsUpperStr l && decide (5 < l.length) &&
        !(vetExcludeKws.any fun k => hasSub k (pyLower l)) then
      some l
    else none

/-- One page of the opened document: its extracted tables and its free
text. -/
structure Page where
  tables : List (List (List Cell))
  text : PyStr
deriving DecidableEq

/-- The per-page table loop of `_extract_appointments_from_pdf`: tables in
document order, a running veterinarian index that advances only on tables
that are actually processed; a table beyond the discovered labels gets the
empty string. -/
def pageAppointmentsFrom (vets : List PyStr) :
    Nat → List (List (List Cell)) → List Record
  | _, [] => []
  | vi, t :: ts =>
    if t.length < 2 then pageAppointmentsFrom vets vi ts
    else
      parse_simplesvet_table t (vets.getD vi []) ++
        pageAppointmentsFrom vets (vi + 1) ts

/-- Processing of one successfully extracted page: nothing without tables,
otherwise the table loop with the labels discovered in the page text. -/
def processPage (p : Page) : List Record :=
  if p.tables.isEmpty then []
  else pageAppointmentsFrom (extract_veterinario_names p.text) 0 p.tables

/-- The page loop of `_extract_appointments_from_pdf` with its surrounding
try/except: a page on which the extraction library raises is `none`; the
handler sits outside the loop, so the first failing page ends the loop and
the records accumulated so far are returned. -/
def extractPagesGo (acc : List Record) : List (Option Page) → List Record
  | [] => acc
  | none :: _ => acc
  | some p :: rest => extractPagesGo (acc ++ processPage p) rest

/-- `PDFConverter._extract_appointments_from_pdf` over the document's
pages. -/
def extract_appointments_from_pdf (pages : List (Option Page)) :
    List Record :=
  extractPagesGo [] pages

/-! ### The converter's outcome (`convert_pdf_to_excel`) -/

/-- The outcome of one conversion call: the value returned to the caller
(the artifact path, or `none`), plus whether the spreadsheet write was ever
attempted (model instrumentation; the Python function returns only the
path). -/
structure ConvertOutcome where
  result : Option PyStr
  attemptedWrite : Bool
deriving DecidableEq

/-- The Excel path computed by `convert_pdf_to_excel` (both branches of the
month conditional). -/
def excelPathFor (pdfPath : PyStr) (monthStr : Option PyStr) : PyStr :=
  match monthStr with
  | some _ => replaceAll (py ".pdf") [] pdfPath ++ py ".xlsx"
  | none => replaceAll (py ".pdf") (py ".xlsx") pdfPath

/-- `PDFConverter.convert_pdf_to_excel`: missing file aborts; zero extracted
records aborts with `None` before any write; a serialization failure inside
the writer block is caught by the catch-all handler, which also returns
`None`. -/
def convert_pdf_to_excel (pdfExists : Bool) (pages : List (Option Page))
    (writeOk : Bool) (pdfPath : PyStr) (monthStr : Option PyStr) :
    ConvertOutcome :=
  if !pdfExists then ⟨none, false⟩
  else
    let data := extract_appointments_from_pdf pages
    if data.isEmpty then ⟨none, false⟩
    else if writeOk then ⟨some (excelPathFor pdfPath monthStr), true⟩
    else ⟨none, true⟩

/-! ### Sales numeric normalization (`VendaExtractor._filter_and_save_csv`) -/

/-- First pandas step: `str.replace(dot, empty, regex=False)` — remove every
dot (thousands separators). -/
def pyRemoveDots (s : PyStr) : PyStr := s.filter (fun c => c != '.')

/-- Second pandas step: `str.replace(comma, dot, regex=False)` — the decimal
comma becomes a period. -/
def pyCommaToDot (s : PyStr) : PyStr :=
  s.map (fun c => if c == ',' then '.' else c)

/-- Third pandas step: the regex replacement removing every character
outside `0-9`, `.`, `-`. -/
def keepNumChars (s : PyStr) : PyStr :=
  s.filter (fun c => pyIsDigit c || c == '.' || c == '-')

/-- Value of a digit list read in base ten. -/
def digitsToNat (l : PyStr) : Nat :=
  l.foldl (fun a c => a * 10 + digitVal c) 0

/-- Standard decimal parse of an unsigned string over the alphabet left by
`keepNumChars`: digits with at most one dot and at least one digit. -/
def parseUnsignedDec (l : PyStr) : Option ℚ :=
  let intPart := l.takeWhile (fun c => c != '.')
  match l.dropWhile (fun c => c != '.') with
  | [] =>
    if !intPart.isEmpty && intPart.all pyIsDigit then
      some (digitsToNat intPart : ℚ)
    else none
  | _ :: frac =>
    if intPart.all pyIsDigit && frac.all pyIsDigit &&
        (!intPart.isEmpty || !frac.isEmpty) then
      some ((digitsToNat intPart : ℚ) +
        (digitsToNat frac : ℚ) / (10 : ℚ) ^ frac.length)
    else none

/-- `pd.to_numeric(col, errors coerced)` on one cell, modelled on the
alphabet `0-9`, `.`, `-` left by the preceding replacements: an optional
leading minus then an unsigned decimal; anything else coerces to the
missing value `none` (NaN), never to zero and never to an error. -/
def pdToNumeric (l : PyStr) : Option ℚ :=
  match l with
  | '-' :: rest => (parseUnsignedDec rest).map (fun q => -q)
  | _ => parseUnsignedDec l

/-- The whole numeric-column normalization applied to one cell by
`_filter_and_save_csv`: remove dots, comma to dot, strip foreign
characters, parse with coercion to missing. -/
def normalize_numeric_cell (s : PyStr) : Option ℚ :=
  pdToNumeric (keepNumChars (pyCommaToDot (pyRemoveDots s)))

/-- The column-wise application of the normalization: pandas transforms the
column cell by cell, never dropping a row. -/
def convertNumericColumn (cells : List PyStr) : List (Option ℚ) :=
  cells.map normalize_numeric_cell

/-! ### Lemmas about the string model -/

theorem matchesAt_iff (p s : PyStr) :
    matchesAt p s = true ↔ ∃ t, s = p ++ t := by
  induction p generalizing s with
  | nil => simp [matchesAt]
  | cons a as ih =>
    cases s with
    | nil => simp [matchesAt]
    | cons b bs =>
      simp only [matchesAt, Bool.and_eq_true, beq_iff_eq, ih]
      constructor
      · rintro ⟨rfl, t, rfl⟩; exact ⟨t, rfl⟩
      · rintro ⟨t, ht⟩
        cases ht
        exact ⟨rfl, t, rfl⟩

theorem hasSub_iff (p s : PyStr) :
    hasSub p s = true ↔ ∃ a b, s = a ++ p ++ b := by
  induction s with
  | nil =>
    simp only [hasSub, List.isEmpty_iff]
    constructor
    · rintro rfl; exact ⟨[], [], rfl⟩
    · rintro ⟨a, b, h⟩
      rcases List.append_eq_nil.mp h.symm with ⟨h1, h2⟩
      exact (List.append_eq_nil.mp h1).2
  | cons c rest ih =>
    simp only [hasSub, Bool.or_eq_true, matchesAt_iff, ih]
    constructor
    · rintro (⟨t, ht⟩ | ⟨a, b, hb⟩)
      · exact ⟨[], t, by simpa using ht⟩
      · exact ⟨c :: a, b, by simp [hb]⟩
    · rintro ⟨a, b, hb⟩
      cases a with
      | nil => exact Or.inl ⟨b, by simpa using hb⟩
      | cons x xs =>
        right
        refine ⟨xs, b, ?_⟩
        have := hb
        simp only [List.cons_append, List.cons.injEq] at this
        exact this.2

theorem dropWhile_keeps (c : Char) (cs b : PyStr) (hc : isWs c = false) :
    ∀ a : PyStr, ∃ a',
      List.dropWhile isWs (a ++ ((c :: cs) ++ b)) = a' ++ ((c :: cs) ++ b)
  | [] => ⟨[], by simp [List.dropWhile_cons, hc]⟩
  | x :: xs => by
    rcases dropWhile_keeps c cs b hc xs with ⟨a', ha'⟩
    by_cases hx : isWs x = true
    · refine ⟨a', ?_⟩
      simp only [List.cons_append, List.dropWhile_cons, hx, if_true]
      simpa using ha'
    · exact ⟨x :: xs, by simp [List.dropWhile_cons, hx]⟩

theorem dropTrailingWs_append (a b : PyStr) :
    dropTrailingWs (a ++ b) =
      if (dropTrailingWs b).isEmpty then dropTrailingWs a
      else a ++ dropTrailingWs b := by
  induction a with
  | nil =>
    by_cases h : (dropTrailingWs b).isEmpty
    · simp only [List.nil_append, h, if_true]
      rw [List.isEmpty_iff.mp h]; rfl
    · simp [h]
  | cons x xs ih =>
    by_cases hb : (dropTrailingWs b).isEmpty
    · have h1 : dropTrailingWs (xs ++ b) = dropTrailingWs xs := by
        rw [ih, if_pos hb]
      simp only [hb, if_true, List.cons_append, dropTrailingWs,
        List.append_eq, h1]
    · have hbne : dropTrailingWs b ≠ [] := by
        intro hh; exact hb (by simp [hh])
      have h1 : dropTrailingWs (xs ++ b) = xs ++ dropTrailingWs b := by
        rw [ih, if_neg hb]
      have h2 : (xs ++ dropTrailingWs b).isEmpty = false := by
        simp [List.isEmpty_iff, hbne]
      simp only [hb, if_false, List.cons_append, dropTrailingWs,
        List.append_eq, h1, h2, Bool.false_and, Bool.false_eq_true, if_false]

theorem dropTrailingWs_single (c : Char) (hc : isWs c = false) :
    dropTrailingWs [c] = [c] := by
  simp [dropTrailingWs, hc]

theorem dropTrailingWs_of_last (q : PyStr) (z : Char) (hz : isWs z = false) :
    dropTrailingWs (q ++ [z]) = q ++ [z] := by
  rw [dropTrailingWs_append, dropTrailingWs_single z hz]
  simp

theorem hasSub_pyStrip_of_hasSub (p s : PyStr) (hne : p ≠ [])
    (hh : isWs (p.headD ' ') = false) (hl : isWs (p.getLastD ' ') = false)
    (h : hasSub p s = true) : hasSub p (pyStrip s) = true := by
  obtain ⟨a, b, rfl⟩ := (hasSub_iff p s).mp h
  obtain ⟨c, cs, rfl⟩ : ∃ c cs, p = c :: cs := by
    cases p with
    | nil => exact absurd rfl hne
    | cons c cs => exact ⟨c, cs, rfl⟩
  have hc : isWs c = false := by simpa using hh
  obtain ⟨q, z, hqz⟩ : ∃ q z, c :: cs = q ++ [z] :=
    ⟨(c :: cs).dropLast, (c :: cs).getLast (by simp),
      (List.dropLast_append_getLast (by simp)).symm⟩
  have hz : isWs z = false := by
    have hgl : (c :: cs).getLastD ' ' = z := by rw [hqz]; simp
    rwa [hgl] at hl
  have hdtp : dropTrailingWs (c :: cs) = c :: cs := by
    rw [hqz]
    exact dropTrailingWs_of_last q z hz
  unfold pyStrip
  rw [List.append_assoc]
  obtain ⟨a', ha'⟩ := dropWhile_keeps c cs b hc a
  rw [ha', dropTrailingWs_append a' ((c :: cs) ++ b),
    dropTrailingWs_append (c :: cs) b]
  by_cases hb : (dropTrailingWs b).isEmpty
  · have h1 : ((if (dropTrailingWs b).isEmpty = true then dropTrailingWs (c :: cs)
        else (c :: cs) ++ dropTrailingWs b)) = c :: cs := by
      rw [if_pos hb, hdtp]
    rw [h1]
    have h2 : (c :: cs : PyStr).isEmpty = false := by simp
    rw [if_neg (by simp)]
    exact (hasSub_iff _ _).mpr ⟨a', [], by simp⟩
  · rw [if_neg hb]
    have h2 : ((c :: cs) ++ dropTrailingWs b).isEmpty = false := by simp
    rw [if_neg (by simp)]
    exact (hasSub_iff _ _).mpr ⟨a', dropTrailingWs b, by simp⟩

theorem wsPres (c : Char) : isWs (pyLowerChar c) = isWs c := by
  unfold pyLowerChar
  split <;> rfl

theorem dropWhile_pyLower (s : PyStr) :
    List.dropWhile isWs (pyLower s) = pyLower (s.dropWhile isWs) := by
  induction s with
  | nil => rfl
  | cons c rest ih =>
    simp only [pyLower, List.map_cons, List.dropWhile_cons, wsPres]
    by_cases hc : isWs c = true
    · simpa [hc, pyLower] using ih
    · simp [hc, pyLower]

theorem dropTrailingWs_pyLower (s : PyStr) :
    dropTrailingWs (pyLower s) = pyLower (dropTrailingWs s) := by
  simp only [pyLower]
  induction s with
  | nil => rfl
  | cons c rest ih =>
    have hemp : (List.map pyLowerChar (dropTrailingWs rest)).isEmpty
        = (dropTrailingWs rest).isEmpty := by
      cases dropTrailingWs rest <;> simp
    simp only [List.map_cons, dropTrailingWs, ih, hemp, wsPres]
    by_cases h : ((dropTrailingWs rest).isEmpty && isWs c) = true
    · simp [h]
    · simp [h]

theorem pyStrip_pyLower (s : PyStr) :
    pyStrip (pyLower s) = pyLower (pyStrip s) := by
  unfold pyStrip
  rw [dropWhile_pyLower, dropTrailingWs_pyLower]

/-- The key compatibility fact behind header resolution and denylist
matching: a keyword without leading or trailing whitespace found in the
lower-cased raw cell is still found after the cell is stripped first (the
source lowers the stripped text). -/
theorem hasSub_lower_strip (p s : PyStr) (hne : p ≠ [])
    (hh : isWs (p.headD ' ') = false) (hl : isWs (p.getLastD ' ') = false)
    (h : hasSub p (pyLower s) = true) :
    hasSub p (pyLower (pyStrip s)) = true := by
  rw [← pyStrip_pyLower]
  exact hasSub_pyStrip_of_hasSub p (pyLower s) hne hh hl h

/-! ### Lemmas about header resolution and the column map -/

/-- Does this header cell get assigned to field `f` by the header loop
(truthy, and its stripped lower-cased text selects `f`)? -/
def assignsField (c : Cell) (f : SemField) : Bool :=
  match c with
  | none => false
  | some s =>
    !s.isEmpty && decide (headerFieldOf (pyLower (pyStrip s)) = some f)

theorem applyHeaderCell_apply (i : Nat) (c : Cell) (m : ColMap)
    (f : SemField) :
    applyHeaderCell i c m f = if assignsField c f then some i else m f := by
  cases c with
  | none => simp [applyHeaderCell, assignsField]
  | some s =>
    by_cases he : s.isEmpty = true
    · simp [applyHeaderCell, assignsField, he]
    · cases hf : headerFieldOf (pyLower (pyStrip s)) with
      | none =>
        have : assignsField (some s) f = false := by
          simp [assignsField, he, hf]
        simp [applyHeaderCell, he, hf, this]
      | some g =>
        by_cases hg : g = f
        · subst hg
          have : assignsField (some s) g = true := by
            simp [assignsField, he, hf]
          simp [applyHeaderCell, he, hf, this, setField]
        · have h1 : assignsField (some s) f = false := by
            simp [assignsField, he, hf, hg]
          rw [h1]
          show (if s.isEmpty = true then m
            else match headerFieldOf (pyLower (pyStrip s)) with
              | some f => setField m f i
              | none => m) f = m f
          rw [if_neg he, hf]
          show setField m g i f = m f
          unfold setField
          rw [if_neg (fun hfg => hg hfg.symm)]

/-- The index of the last (rightmost) cell, counting from the given start,
that the header loop assigns to a given field — the specification of
"later matches overwrite earlier ones". -/
def lastFieldIndexFrom : Nat → List Cell → SemField → Option Nat
  | _, [], _ => none
  | i, c :: cs, f =>
    match lastFieldIndexFrom (i + 1) cs f with
    | some j => some j
    | none => if assignsField c f then some i else none

theorem buildColIndicesFrom_apply (cs : List Cell) :
    ∀ (i : Nat) (m : ColMap) (f : SemField),
      buildColIndicesFrom i cs m f =
        match lastFieldIndexFrom i cs f with
        | some j => some j
        | none => m f := by
  induction cs with
  | nil => intro i m f; rfl
  | cons c cs ih =>
    intro i m f
    show buildColIndicesFrom (i + 1) cs (applyHeaderCell i c m) f = _
    rw [ih (i + 1) (applyHeaderCell i c m) f, applyHeaderCell_apply]
    cases h : lastFieldIndexFrom (i + 1) cs f with
    | none =>
      by_cases hA : assignsField c f = true <;>
        simp [lastFieldIndexFrom, h, hA]
    | some j => simp [lastFieldIndexFrom, h]

theorem buildColIndices_eq_last (headers : List Cell) (f : SemField) :
    buildColIndices headers f = lastFieldIndexFrom 0 headers f := by
  rw [buildColIndices, buildColIndicesFrom_apply]
  cases h : lastFieldIndexFrom 0 headers f <;> simp [emptyColMap]

/-- The keyword set of each semantic field, as in §4.2 of the spec. -/
def fieldKeywords : SemField → List PyStr
  | .cliente => [py "cliente"]
  | .animal => [py "animal"]
  | .tipo_atendimento => [py "tipo", py "atendimento"]
  | .data => [py "data"]
  | .hora => [py "hora"]
  | .status => [py "status"]

/-- Does the lower-cased header text match some keyword of the field? -/
def fieldMatches (f : SemField) (h : PyStr) : Bool :=
  (fieldKeywords f).any (fun k => hasSub k h)

/-- The fixed priority order of the fields. -/
def priorityOrder : List SemField :=
  [.cliente, .animal, .tipo_atendimento, .data, .hora, .status]

/-- The specification's classifier: the first field of the priority order
whose keyword set matches. -/
def specClassify (h : PyStr) : Option SemField :=
  priorityOrder.find? (fun f => fieldMatches f h)

theorem headerFieldOf_eq_specClassify (h : PyStr) :
    headerFieldOf h = specClassify h := by
  cases hc : hasSub (py "cliente") h <;>
    cases ha : hasSub (py "animal") h <;>
    cases ht : hasSub (py "tipo") h <;>
    cases hat : hasSub (py "atendimento") h <;>
    cases hd : hasSub (py "data") h <;>
    cases hh2 : hasSub (py "hora") h <;>
    cases hs : hasSub (py "status") h <;>
    simp [headerFieldOf, specClassify, priorityOrder, fieldMatches,
      fieldKeywords, List.find?, hc, ha, ht, hat, hd, hh2, hs]

theorem findHeaderFrom_first (table : List (List Cell)) :
    ∀ (k i : Nat) (r : List Cell), table.get? i = some r →
      rowHasClienteB r = true →
      (∀ j, j < i → rowHasClienteB (table.getD j []) = false) →
      findHeaderFrom k table = some (k + i, r) := by
  induction table with
  | nil => intro k i r hget; simp at hget
  | cons t ts ih =>
    intro k i r hget hr hprev
    cases i with
    | zero =>
      have ht : t = r := by simpa using hget
      subst ht
      simp [findHeaderFrom, hr]
    | succ i =>
      have ht : rowHasClienteB t = false := by
        have := hprev 0 (Nat.succ_pos i)
        simpa [List.getD] using this
      have hrec := ih (k + 1) i r (by simpa using hget) hr
        (fun j hj => by
          have := hprev (j + 1) (Nat.succ_lt_succ hj)
          simpa [List.getD] using this)
      rw [findHeaderFrom, if_neg (by simp [ht]), hrec]
      congr 2
      omega

theorem findHeaderFrom_none (table : List (List Cell))
    (h : ∀ r ∈ table, rowHasClienteB r = false) :
    ∀ k, findHeaderFrom k table = none := by
  induction table with
  | nil => intro k; rfl
  | cons t ts ih =>
    intro k
    have ht : rowHasClienteB t = false := h t (List.mem_cons_self t ts)
    rw [findHeaderFrom, if_neg (by simp [ht])]
    exact ih (fun r hr => h r (List.mem_cons_of_mem t hr)) (k + 1)

theorem assignsField_cliente_of (s : PyStr) (hs : s.isEmpty = false)
    (h : hasSub (py "cliente") (pyLower s) = true) :
    assignsField (some s) SemField.cliente = true := by
  have h2 := hasSub_lower_strip (py "cliente") s (by decide) (by decide)
    (by decide) h
  have h3 : headerFieldOf (pyLower (pyStrip s)) = some SemField.cliente := by
    unfold headerFieldOf
    rw [if_pos h2]
  simp [assignsField, hs, h3]

theorem lastFieldIndexFrom_ne_none (f : SemField) (r : List Cell) :
    ∀ i, (∃ c ∈ r, assignsField c f = true) →
      lastFieldIndexFrom i r f ≠ none := by
  induction r with
  | nil => intro i h; simp at h
  | cons c cs ih =>
    intro i h
    rcases h with ⟨x, hx, hxa⟩
    rcases List.mem_cons.mp hx with rfl | hmem
    · rw [lastFieldIndexFrom]
      cases hrec : lastFieldIndexFrom (i + 1) cs f with
      | some j => simp
      | none => simp [hxa]
    · have := ih (i + 1) ⟨x, hmem, hxa⟩
      rw [lastFieldIndexFrom]
      cases hrec : lastFieldIndexFrom (i + 1) cs f with
      | some j => simp
      | none => exact absurd hrec this

/-- Claim C1: the header resolver selects the first row, scanning top to
bottom, containing a truthy cell whose lower-cased text contains the
keyword for the client field; the resulting column map then has the client
field mapped; and a table none of whose rows contains such a cell yields
zero records. -/
theorem c1_header_resolution :
    (∀ (table : List (List Cell)) (i : Nat) (r : List Cell),
        table.get? i = some r → rowHasClienteB r = true →
        (∀ j, j < i → rowHasClienteB (table.getD j []) = false) →
        findHeaderFrom 0 table = some (i, r)) ∧
    (∀ r : List Cell, rowHasClienteB r = true →
        buildColIndices r SemField.cliente ≠ none) ∧
    (∀ (table : List (List Cell)) (veterinario : PyStr),
        (∀ r ∈ table, rowHasClienteB r = false) →
        parse_simplesvet_table table veterinario = []) := by
  refine ⟨?_, ?_, ?_⟩
  · intro table i r hget hr hprev
    have := findHeaderFrom_first table 0 i r hget hr hprev
    simpa using this
  · intro r hr
    rw [buildColIndices_eq_last]
    apply lastFieldIndexFrom_ne_none
    rcases List.any_eq_true.mp hr with ⟨c, hc, hcp⟩
    cases c with
    | none => simp at hcp
    | some s =>
      simp only [Bool.and_eq_true, Bool.not_eq_true'] at hcp
      exact ⟨some s, hc, assignsField_cliente_of s hcp.1 hcp.2⟩
  · intro table veterinario h
    unfold parse_simplesvet_table
    by_cases hlen : table.length < 2
    · simp [hlen]
    · simp [hlen, findHeaderFrom_none table h 0]

/-- Concrete sample rows and tables used by the witnesses below. -/
def hdrRow : List Cell := [some (py "Cliente"), some (py "Animal"), some (py "Data")]

/-- A regular data row below the sample header. -/
def dataRow1 : List Cell := [some (py "Joao"), some (py "Rex"), some (py "05/10/2025")]

/-- A minimal table: header plus one valid data row. -/
def sampleTable : List (List Cell) := [hdrRow, dataRow1]

/-- A table whose first row is not a header, so resolution must pick the
second row. -/
def sampleTable2 : List (List Cell) := [[some (py "Agenda do dia")], hdrRow, dataRow1]

theorem c1_header_resolution_witness :
    findHeaderFrom 0 sampleTable2 = some (1, hdrRow) ∧
    buildColIndices hdrRow SemField.cliente ≠ none ∧
    parse_simplesvet_table [[some (py "Animal")], [some (py "Data")]]
      (py "V") = [] :=
  ⟨c1_header_resolution.1 sampleTable2 1 hdrRow rfl (by decide) (by decide),
   c1_header_resolution.2.1 hdrRow (by decide),
   c1_header_resolution.2.2 [[some (py "Animal")], [some (py "Data")]]
     (py "V") (by decide)⟩

/-! ### Lemmas about date validation -/

theorem ws_false_of_digit (c : Char) (h : pyIsDigit c = true) :
    isWs c = false := by
  simp only [pyIsDigit, Bool.or_eq_true, beq_iff_eq] at h
  rcases h with ((((((((rfl | rfl) | rfl) | rfl) | rfl) | rfl) | rfl) |
    rfl) | rfl) | rfl <;> rfl

theorem strictShape_decomp (s : PyStr) (h : strictShape s = true) :
    ∃ a b c d e f g h10 : Char,
      s = [a, b, '/', c, d, '/', e, f, g, h10] ∧
      pyIsDigit a = true ∧ pyIsDigit b = true ∧ pyIsDigit c = true ∧
      pyIsDigit d = true ∧ pyIsDigit e = true ∧ pyIsDigit f = true ∧
      pyIsDigit g = true ∧ pyIsDigit h10 = true := by
  rcases s with _ | ⟨a, s⟩
  · exact Bool.noConfusion h
  rcases s with _ | ⟨b, s⟩
  · exact Bool.noConfusion h
  rcases s with _ | ⟨s1, s⟩
  · exact Bool.noConfusion h
  rcases s with _ | ⟨c, s⟩
  · exact Bool.noConfusion h
  rcases s with _ | ⟨d, s⟩
  · exact Bool.noConfusion h
  rcases s with _ | ⟨s2, s⟩
  · exact Bool.noConfusion h
  rcases s with _ | ⟨e, s⟩
  · exact Bool.noConfusion h
  rcases s with _ | ⟨f, s⟩
  · exact Bool.noConfusion h
  rcases s with _ | ⟨g, s⟩
  · exact Bool.noConfusion h
  rcases s with _ | ⟨h10, s⟩
  · exact Bool.noConfusion h
  rcases s with _ | ⟨x, s⟩
  case cons => exact Bool.noConfusion h
  simp only [strictShape, Bool.and_eq_true, beq_iff_eq] at h
  obtain ⟨⟨⟨⟨⟨⟨⟨⟨⟨ha, hb⟩, hs1⟩, hc⟩, hd⟩, hs2⟩, he⟩, hf⟩, hg⟩, hh⟩ := h
  subst hs1; subst hs2
  exact ⟨a, b, c, d, e, f, g, h10, rfl, ha, hb, hc, hd, he, hf, hg, hh⟩

theorem pyStrip_of_strictShape (s : PyStr) (h : strictShape s = true) :
    pyStrip s = s := by
  obtain ⟨a, b, c, d, e, f, g, h10, rfl, ha, hb, hc, hd, he, hf, hg, hh⟩ :=
    strictShape_decomp s h
  have hwa : isWs a = false := ws_false_of_digit a ha
  have hwh : isWs h10 = false := ws_false_of_digit h10 hh
  unfold pyStrip
  rw [List.dropWhile_cons, if_neg (by simp [hwa])]
  have hsplit : (a :: b :: '/' :: c :: d :: '/' :: e :: f :: g :: [h10] :
      PyStr) = [a, b, '/', c, d, '/', e, f, g] ++ [h10] := rfl
  rw [hsplit]
  exact dropTrailingWs_of_last [a, b, '/', c, d, '/', e, f, g] h10 hwh

theorem is_valid_date_eq_spec (s : PyStr) :
    is_valid_date s = specDateValid s := by
  by_cases h : strictShape s = true
  · have hstrip := pyStrip_of_strictShape s h
    have hne : s.isEmpty = false := by
      obtain ⟨a, b, c, d, e, f, g, h10, rfl, -⟩ := strictShape_decomp s h
      rfl
    unfold is_valid_date specDateValid strptimeOk datePatternMatch
    rw [hstrip, hne]
    simp [h]
  · have hsh : strictShape s = false := by simpa using h
    unfold is_valid_date specDateValid strptimeOk datePatternMatch
    by_cases hb : (s.isEmpty || (pyStrip s).isEmpty) = true
    · simp [hb, hsh]
    · by_cases hp : (strictShape s || shapeWithNl s) = true
      · simp [hb, hp, hsh]
      · simp [hb, hp, hsh]

/-- Claim C2: a date value is valid exactly when it has the strict
two-digit/two-digit/four-digit slash shape and encodes a real calendar
date; the three sample inputs behave as stated; and a row whose date field
is invalid is rejected by the row classifier. -/
theorem c2_date_validity :
    (∀ s : PyStr, is_valid_date s = (strictShape s && calendarOf s)) ∧
    is_valid_date (py "31/02/2025") = false ∧
    is_valid_date (py "05/10/2025") = true ∧
    is_valid_date (py "2025-10-05") = false ∧
    (∀ (cm : ColMap) (veterinario : PyStr) (row : List Cell),
        is_valid_date (get_cell_value row (cm SemField.data)) = false →
        classifyRow cm veterinario row = none) := by
  refine ⟨is_valid_date_eq_spec, by decide, by decide, by decide, ?_⟩
  intro cm veterinario row hdate
  unfold classifyRow
  by_cases h1 : (row.isEmpty || row.all cellBlank) = true
  · simp [h1]
  · by_cases h2 : (denylist.any
        (fun p => hasSub p (pyLower (rowFirstCell row)))) = true
    · simp [h1, h2]
    · simp [h1, h2, mkAppointment, hdate]

/-- A data row carrying a pattern-valid but calendar-invalid date. -/
def badDateRow : List Cell := [some (py "Joao"), some (py "Rex"), some (py "31/02/2025")]

theorem c2_date_validity_witness :
    classifyRow (buildColIndices hdrRow) (py "v") badDateRow = none :=
  c2_date_validity.2.2.2.2 (buildColIndices hdrRow) (py "v") badDateRow
    (by decide)

/-! ### Denylist rejection (claim C3) -/

theorem denylist_facts :
    ∀ p ∈ denylist, p ≠ [] ∧ isWs (p.headD ' ') = false ∧
      isWs (p.getLastD ' ') = false := by decide

/-- Claim C3: a data row whose first cell, lower-cased, contains any phrase
of the fixed denylist is rejected by the row classifier regardless of its
other cells, and produces no record. -/
theorem c3_denylist_rejection :
    ∀ (cm : ColMap) (veterinario : PyStr) (row : List Cell) (p : PyStr),
      p ∈ denylist → hasSub p (pyLower (rowFirstCellRaw row)) = true →
      classifyRow cm veterinario row = none := by
  intro cm veterinario row p hp hsub
  obtain ⟨hpne, hph, hpl⟩ := denylist_facts p hp
  have hsub2 : hasSub p (pyLower (rowFirstCell row)) = true := by
    rcases row with _ | ⟨c0, rest⟩
    · rw [show rowFirstCellRaw ([] : List Cell) = [] from rfl] at hsub
      simp [hasSub, pyLower, List.isEmpty_iff, hpne] at hsub
    · cases c0 with
      | none =>
        rw [show rowFirstCellRaw (none :: rest) = [] from rfl] at hsub
        simp [hasSub, pyLower, List.isEmpty_iff, hpne] at hsub
      | some s =>
        rw [show rowFirstCellRaw (some s :: rest) = s from rfl] at hsub
        by_cases hs : s.isEmpty = true
        · rw [List.isEmpty_iff.mp hs] at hsub
          simp [hasSub, pyLower, List.isEmpty_iff, hpne] at hsub
        · rw [show rowFirstCell (some s :: rest)
              = if s.isEmpty then [] else pyStrip s from rfl, if_neg hs]
          exact hasSub_lower_strip p s hpne hph hpl hsub
  unfold classifyRow
  by_cases h1 : (row.isEmpty || row.all cellBlank) = true
  · simp [h1]
  · have hdeny : (denylist.any
        fun q => hasSub q (pyLower (rowFirstCell row))) = true :=
      List.any_eq_true.mpr ⟨p, hp, hsub2⟩
    simp [h1, hdeny]

/-- A data row starting with a denylisted annotation phrase but carrying
otherwise-valid cells. -/
def denyRow : List Cell :=
  [some (py "  Paga na hora combinada"), some (py "Rex"),
   some (py "05/10/2025")]

theorem c3_denylist_rejection_witness :
    classifyRow (buildColIndices hdrRow) (py "v") denyRow = none :=
  c3_denylist_rejection (buildColIndices hdrRow) (py "v") denyRow
    (py "paga na hora") (by decide) (by decide)

/-! ### The required-nonblank invariant (claim C4) -/

theorem classifyRow_nonblank (cm : ColMap) (veterinario : PyStr)
    (row : List Cell) (r : Record) (h : classifyRow cm veterinario row = some r) :
    r.cliente ≠ [] ∨ r.animal ≠ [] := by
  unfold classifyRow at h
  by_cases h1 : (row.isEmpty || row.all cellBlank) = true
  · rw [if_pos h1] at h; exact absurd h (by simp)
  · rw [if_neg h1] at h
    by_cases h2 : (denylist.any
        fun p => hasSub p (pyLower (rowFirstCell row))) = true
    · rw [if_pos h2] at h; exact absurd h (by simp)
    · rw [if_neg h2] at h
      by_cases h3 : (!is_valid_date (mkAppointment cm veterinario row).data)
          = true
      · rw [if_pos h3] at h; exact absurd h (by simp)
      · rw [if_neg h3] at h
        by_cases h4 : (!(mkAppointment cm veterinario row).cliente.isEmpty ||
            !(mkAppointment cm veterinario row).animal.isEmpty) = true
        · rw [if_pos h4] at h
          have hr : mkAppointment cm veterinario row = r := by
            simpa using h
          subst hr
          simpa [List.isEmpty_iff, Decidable.or_iff_not_imp_left] using h4
        · rw [if_neg h4] at h; exact absurd h (by simp)

theorem parse_nonblank (table : List (List Cell)) (veterinario : PyStr)
    (r : Record) (h : r ∈ parse_simplesvet_table table veterinario) :
    r.cliente ≠ [] ∨ r.animal ≠ [] := by
  unfold parse_simplesvet_table at h
  split at h
  · exact absurd h (List.not_mem_nil r)
  · split at h
    · exact absurd h (List.not_mem_nil r)
    · obtain ⟨row, _, hc⟩ := List.mem_filterMap.mp h
      exact classifyRow_nonblank _ _ _ _ hc

theorem pageAppointmentsFrom_nonblank (vets : List PyStr)
    (ts : List (List (List Cell))) :
    ∀ (vi : Nat) (r : Record), r ∈ pageAppointmentsFrom vets vi ts →
      r.cliente ≠ [] ∨ r.animal ≠ [] := by
  induction ts with
  | nil => intro vi r h; exact absurd h (List.not_mem_nil r)
  | cons t ts ih =>
    intro vi r h
    unfold pageAppointmentsFrom at h
    split at h
    · exact ih vi r h
    · rcases List.mem_append.mp h with h | h
      · exact parse_nonblank t _ r h
      · exact ih (vi + 1) r h

theorem extractPagesGo_nonblank (ps : List (Option Page)) :
    ∀ (acc : List Record),
      (∀ r ∈ acc, r.cliente ≠ [] ∨ r.animal ≠ []) →
      ∀ r ∈ extractPagesGo acc ps, r.cliente ≠ [] ∨ r.animal ≠ [] := by
  induction ps with
  | nil => intro acc hacc r h; exact hacc r h
  | cons p ps ih =>
    intro acc hacc r h
    cases p with
    | none => exact hacc r h
    | some p =>
      refine ih (acc ++ processPage p) ?_ r h
      intro x hx
      rcases List.mem_append.mp hx with hx | hx
      · exact hacc x hx
      · unfold processPage at hx
        split at hx
        · exact absurd hx (List.not_mem_nil x)
        · exact pageAppointmentsFrom_nonblank _ _ 0 x hx

/-- Claim C4: every record retained by the appointment-path extractor has a
non-blank client or a non-blank animal; the row classifier only emits such
records; and a row with blank client and blank animal is never retained. -/
theorem c4_required_nonblank :
    (∀ (pages : List (Option Page)) (r : Record),
        r ∈ extract_appointments_from_pdf pages →
        r.cliente ≠ [] ∨ r.animal ≠ []) ∧
    (∀ (cm : ColMap) (veterinario : PyStr) (row : List Cell) (r : Record),
        classifyRow cm veterinario row = some r →
        r.cliente ≠ [] ∨ r.animal ≠ []) ∧
    (∀ (cm : ColMap) (veterinario : PyStr) (row : List Cell),
        get_cell_value row (cm SemField.cliente) = [] →
        get_cell_value row (cm SemField.animal) = [] →
        classifyRow cm veterinario row = none) := by
  refine ⟨?_, classifyRow_nonblank, ?_⟩
  · intro pages r h
    exact extractPagesGo_nonblank pages [] (by simp) r h
  · intro cm veterinario row hcl han
    unfold classifyRow
    by_cases h1 : (row.isEmpty || row.all cellBlank) = true
    · simp [h1]
    · by_cases h2 : (denylist.any
          fun p => hasSub p (pyLower (rowFirstCell row))) = true
      · simp [h1, h2]
      · by_cases h3 : (!is_valid_date (mkAppointment cm veterinario row).data)
            = true
        · simp [h1, h2, h3]
        · simp [h1, h2, h3, mkAppointment, hcl, han]

/-- A page whose text names one veterinarian and whose only table is the
sample table. -/
def pageA : Page := { tables := [sampleTable], text := py "DRA MARIA" }

/-- The record extracted from `pageA`. -/
def recA : Record :=
  { veterinario := py "DRA MARIA", cliente := py "Joao", animal := py "Rex"
    tipo_atendimento := [], data := py "05/10/2025", hora := [], status := [] }

/-- The record the classifier emits for `dataRow1` under the sample header
and the veterinarian label used in the witnesses. -/
def recV : Record :=
  { veterinario := py "v", cliente := py "Joao", animal := py "Rex"
    tipo_atendimento := [], data := py "05/10/2025", hora := [], status := [] }

/-- A row that passes the date check but has blank client and animal. -/
def blankNamesRow : List Cell := [none, none, some (py "05/10/2025")]

theorem c4_required_nonblank_witness :
    (recA.cliente ≠ [] ∨ recA.animal ≠ []) ∧
    (recV.cliente ≠ [] ∨ recV.animal ≠ []) ∧
    classifyRow (buildColIndices hdrRow) (py "v") blankNamesRow = none :=
  ⟨c4_required_nonblank.1 [some pageA] recA (by decide),
   c4_required_nonblank.2.1 (buildColIndices hdrRow) (py "v") dataRow1 recV
     (by decide),
   c4_required_nonblank.2.2 (buildColIndices hdrRow) (py "v") blankNamesRow
     (by decide) (by decide)⟩

/-! ### Totality of cell lookup (claim C9) -/

/-- Claim C9: `_get_cell_value` is total on every row and optional index —
a missing index, an index at or past the row's length, or a `None` cell
yield the empty string, and a present cell is returned trimmed. -/
theorem c9_get_cell_value_total :
    ∀ (row : List Cell) (ci : Option Nat),
      (ci = none → get_cell_value row ci = []) ∧
      (∀ i, ci = some i → row.length ≤ i → get_cell_value row ci = []) ∧
      (∀ i, ci = some i → row.get? i = some none →
        get_cell_value row ci = []) ∧
      (∀ i s, ci = some i → row.get? i = some (some s) →
        get_cell_value row ci = pyStrip s) := by
  intro row ci
  refine ⟨?_, ?_, ?_, ?_⟩
  · rintro rfl; rfl
  · rintro i rfl hlen
    show (if row.length ≤ i then []
      else match row.getD i none with
        | none => []
        | some s => pyStrip s) = []
    rw [if_pos hlen]
  · rintro i rfl hget
    have hlt : i < row.length := (List.get?_eq_some.mp hget).1
    show (if row.length ≤ i then []
      else match row.getD i none with
        | none => []
        | some s => pyStrip s) = []
    rw [if_neg (by omega)]
    have hgd : row.getD i none = none := by
      rw [List.getD_eq_getElem?_getD, ← List.get?_eq_getElem?, hget]
      rfl
    rw [hgd]
  · rintro i s rfl hget
    have hlt : i < row.length := (List.get?_eq_some.mp hget).1
    show (if row.length ≤ i then []
      else match row.getD i none with
        | none => []
        | some t => pyStrip t) = pyStrip s
    rw [if_neg (by omega)]
    have hgd : row.getD i none = some s := by
      rw [List.getD_eq_getElem?_getD, ← List.get?_eq_getElem?, hget]
      rfl
    rw [hgd]

theorem c9_get_cell_value_total_witness :
    get_cell_value dataRow1 none = [] ∧
    get_cell_value dataRow1 (some 7) = [] ∧
    get_cell_value blankNamesRow (some 0) = [] ∧
    get_cell_value dataRow1 (some 0) = pyStrip (py "Joao") :=
  ⟨(c9_get_cell_value_total dataRow1 none).1 rfl,
   (c9_get_cell_value_total dataRow1 (some 7)).2.1 7 rfl (by decide),
   (c9_get_cell_value_total blankNamesRow (some 0)).2.2.1 0 rfl (by decide),
   (c9_get_cell_value_total dataRow1 (some 0)).2.2.2 0 (py "Joao") rfl
     (by decide)⟩

/-! ### Last match wins, and the fixed priority order (claim C10) -/

/-- Claim C10: for every header row and every field, the column map records
the index of the last (rightmost) cell assigned to that field — later
matches overwrite earlier ones — and a single cell is classified to the
first matching field of the fixed priority order cliente, animal,
tipo/atendimento, data, hora, status. -/
theorem c10_last_match_priority :
    (∀ (headers : List Cell) (f : SemField),
        buildColIndices headers f = lastFieldIndexFrom 0 headers f) ∧
    (∀ h : PyStr, headerFieldOf h = specClassify h) :=
  ⟨buildColIndices_eq_last, headerFieldOf_eq_specClassify⟩

/-! ### Sales numeric normalization (claim C5) -/

theorem keepNumChars_all_ws :
    ∀ s : PyStr, s.all isWs = true →
      keepNumChars (pyCommaToDot (pyRemoveDots s)) = [] := by
  intro s hs
  induction s with
  | nil => rfl
  | cons c rest ih =>
    simp only [List.all_cons, Bool.and_eq_true] at hs
    obtain ⟨hc, hrest⟩ := hs
    have hcs : c = ' ' ∨ c = '\t' ∨ c = '\n' ∨ c = '\r' := by
      simpa [isWs, Bool.or_eq_true, beq_iff_eq, or_assoc] using hc
    rcases hcs with rfl | rfl | rfl | rfl <;>
      simpa [pyRemoveDots, pyCommaToDot, keepNumChars, pyIsDigit,
        List.filter_cons, List.map_cons] using ih hrest

theorem normalize_blank_none (s : PyStr) (hs : s.all isWs = true) :
    normalize_numeric_cell s = none := by
  unfold normalize_numeric_cell
  rw [keepNumChars_all_ws s hs]
  rfl

/-- Claim C5: locale normalization of the sales numeric fields maps
`1.234,56` to 1234.56 and `R$ 10,00` to 10.00; empty, blank and
unparseable input become the explicit missing value, never zero and never
an error; and the column transformation keeps every row. -/
theorem c5_numeric_normalization :
    normalize_numeric_cell (py "1.234,56") = some ((123456 : ℚ) / 100) ∧
    normalize_numeric_cell (py "R$ 10,00") = some 10 ∧
    normalize_numeric_cell (py "") = none ∧
    normalize_numeric_cell (py "abc") = none ∧
    (∀ s : PyStr, s.all isWs = true → normalize_numeric_cell s = none) ∧
    (∀ cells : List PyStr,
        (convertNumericColumn cells).length = cells.length) := by
  refine ⟨?_, ?_, rfl, rfl, normalize_blank_none, fun cells => List.length_map cells _⟩
  · have h1 : keepNumChars (pyCommaToDot (pyRemoveDots (py "1.234,56")))
        = py "1234.56" := by decide
    have h3 : pdToNumeric (py "1234.56")
        = some ((digitsToNat (py "1234") : ℚ) +
          (digitsToNat (py "56") : ℚ) / (10 : ℚ) ^ (2 : ℕ)) := rfl
    have h4 : digitsToNat (py "1234") = 1234 := by decide
    have h5 : digitsToNat (py "56") = 56 := by decide
    unfold normalize_numeric_cell
    rw [h1, h3, h4, h5]
    norm_num
  · have h1 : keepNumChars (pyCommaToDot (pyRemoveDots (py "R$ 10,00")))
        = py "10.00" := by decide
    have h3 : pdToNumeric (py "10.00")
        = some ((digitsToNat (py "10") : ℚ) +
          (digitsToNat (py "00") : ℚ) / (10 : ℚ) ^ (2 : ℕ)) := rfl
    have h4 : digitsToNat (py "10") = 10 := by decide
    have h5 : digitsToNat (py "00") = 0 := by decide
    unfold normalize_numeric_cell
    rw [h1, h3, h4, h5]
    norm_num

theorem c5_numeric_normalization_witness :
    normalize_numeric_cell (py " ") = none :=
  c5_numeric_normalization.2.2.2.2.1 (py " ") (by decide)

/-! ### Table-to-label pairing (claim C6) -/

/-- The tables actually processed by the page loop (at least two rows),
each with the position index used to look up its veterinarian label. -/
def keptTablesIdx : Nat → List (List (List Cell)) → List (Nat × List (List Cell))
  | _, [] => []
  | i, t :: ts =>
    if t.length < 2 then keptTablesIdx i ts
    else (i, t) :: keptTablesIdx (i + 1) ts

theorem pageAppointmentsFrom_eq (vets : List PyStr)
    (ts : List (List (List Cell))) :
    ∀ i : Nat, pageAppointmentsFrom vets i ts =
      ((keptTablesIdx i ts).map
        (fun p => parse_simplesvet_table p.2 (vets.getD p.1 []))).flatten := by
  induction ts with
  | nil => intro i; rfl
  | cons t ts ih =>
    intro i
    unfold pageAppointmentsFrom keptTablesIdx
    by_cases h : t.length < 2
    · simp [h, ih i]
    · simp [h, ih (i + 1)]

/-- Claim C6 as stated is false: with two processable tables and a single
discovered label, the second table's records carry the empty veterinarian,
not the last label reused. -/
theorem c6_label_reuse_counterexample :
    (pageAppointmentsFrom [py "DR A"] 0 [sampleTable, sampleTable]).map
      Record.veterinario = [py "DR A", []] ∧
    ([] : PyStr) ≠ py "DR A" := ⟨by decide, by decide⟩

/-- Claim C6 (amended): tables are matched 1:1 with discovered labels by
position in document order; each remaining table beyond the label count
gets the empty string as its veterinarian (the lookup falls back to the
empty default past the end of the label list); no table's records are
dropped by the mismatch — the page yield is exactly the concatenation over
all processable tables. -/
theorem c6_positional_label_matching :
    (∀ (vets : List PyStr) (i : Nat) (ts : List (List (List Cell))),
        pageAppointmentsFrom vets i ts =
          ((keptTablesIdx i ts).map
            (fun p => parse_simplesvet_table p.2 (vets.getD p.1 []))).flatten) ∧
    (∀ (vets : List PyStr) (i : Nat), vets.length ≤ i →
        vets.getD i ([] : PyStr) = []) := by
  refine ⟨fun vets i ts => pageAppointmentsFrom_eq vets ts i, ?_⟩
  intro vets i h
  rw [List.getD_eq_getElem?_getD, List.getElem?_eq_none h]
  rfl

theorem c6_positional_label_matching_witness :
    pageAppointmentsFrom [py "DR A"] 0 [sampleTable] =
      ((keptTablesIdx 0 [sampleTable]).map
        (fun p => parse_simplesvet_table p.2 ([py "DR A"].getD p.1 []))).flatten ∧
    [py "DR A"].getD 3 ([] : PyStr) = [] :=
  ⟨c6_positional_label_matching.1 [py "DR A"] 0 [sampleTable],
   c6_positional_label_matching.2 [py "DR A"] 3 (by decide)⟩

/-! ### Page-level failure containment (claim C7) -/

theorem extractPagesGo_acc (ps : List (Option Page)) :
    ∀ acc : List Record,
      extractPagesGo acc ps = acc ++ extractPagesGo [] ps := by
  induction ps with
  | nil => intro acc; simp [extractPagesGo]
  | cons p ps ih =>
    intro acc
    cases p with
    | none => simp [extractPagesGo]
    | some p =>
      show extractPagesGo (acc ++ processPage p) ps
        = acc ++ extractPagesGo ([] ++ processPage p) ps
      rw [ih (acc ++ processPage p), ih ([] ++ processPage p)]
      simp

/-- Claim C7 as stated is false: with a failing middle page between two
good pages that each yield records, the result contains only the first
page's records — the pages after the failure are not processed. -/
theorem c7_page_failure_counterexample :
    extract_appointments_from_pdf [some pageA, none, some pageA] =
      processPage pageA ∧
    extract_appointments_from_pdf [some pageA, none, some pageA] ≠
      processPage pageA ++ processPage pageA := ⟨by decide, by decide⟩

/-- Claim C7 (amended): an extraction failure on a page is caught at the
document level: the records accumulated from the pages before the failing
page are still returned, but extraction does not continue past the failing
page; without a failure every page is processed. -/
theorem c7_page_failure_containment :
    (∀ (good : List Page) (rest : List (Option Page)),
        extract_appointments_from_pdf (good.map some ++ none :: rest) =
          (good.map processPage).flatten) ∧
    (∀ good : List Page,
        extract_appointments_from_pdf (good.map some) =
          (good.map processPage).flatten) := by
  constructor
  · intro good
    induction good with
    | nil => intro rest; rfl
    | cons p good ih =>
      intro rest
      show extractPagesGo ([] ++ processPage p)
        (good.map some ++ none :: rest) = _
      rw [extractPagesGo_acc]
      show [] ++ processPage p ++
        extract_appointments_from_pdf (good.map some ++ none :: rest) = _
      rw [ih rest]
      simp
  · intro good
    induction good with
    | nil => rfl
    | cons p good ih =>
      show extractPagesGo ([] ++ processPage p) (good.map some) = _
      rw [extractPagesGo_acc]
      show [] ++ processPage p ++
        extract_appointments_from_pdf (good.map some) = _
      rw [ih]
      simp

/-! ### The converter's two abort cases (claim C8) -/

/-- Claim C8 as stated is false: the zero-records abort and the
write-failure abort return the same value (`None`), so the caller cannot
tell them apart from the returned value alone; the second input really is
the write-failure case since its extraction is nonempty. -/
theorem c8_outcome_counterexample :
    (convert_pdf_to_excel true [] true (py "a.pdf") none).result = none ∧
    (convert_pdf_to_excel true [some pageA] false (py "a.pdf") none).result
      = none ∧
    extract_appointments_from_pdf [some pageA] ≠ [] :=
  ⟨rfl, by decide, by decide⟩

/-- Claim C8 (amended): with zero extracted records the converter returns
`None` without attempting a write; with a failing spreadsheet
serialization it returns `None` after attempting the write; with records
and a successful write it returns the artifact path — so the two abort
cases both return `None` and differ only in the attempted write, not in
the returned value. -/
theorem c8_abort_outcomes :
    (∀ (pages : List (Option Page)) (w : Bool) (p : PyStr) (m : Option PyStr),
        extract_appointments_from_pdf pages = [] →
        convert_pdf_to_excel true pages w p m = ⟨none, false⟩) ∧
    (∀ (pages : List (Option Page)) (p : PyStr) (m : Option PyStr),
        extract_appointments_from_pdf pages ≠ [] →
        convert_pdf_to_excel true pages false p m = ⟨none, true⟩) ∧
    (∀ (pages : List (Option Page)) (p : PyStr) (m : Option PyStr),
        extract_appointments_from_pdf pages ≠ [] →
        convert_pdf_to_excel true pages true p m
          = ⟨some (excelPathFor p m), true⟩) := by
  refine ⟨?_, ?_, ?_⟩
  · intro pages w p m h
    simp [convert_pdf_to_excel, List.isEmpty_iff, h]
  · intro pages p m h
    simp [convert_pdf_to_excel, List.isEmpty_iff, h]
  · intro pages p m h
    simp [convert_pdf_to_excel, List.isEmpty_iff, h]

theorem c8_abort_outcomes_witness :
    convert_pdf_to_excel true [] true (py "a.pdf") none = ⟨none, false⟩ ∧
    convert_pdf_to_excel true [some pageA] false (py "a.pdf") none
      = ⟨none, true⟩ ∧
    convert_pdf_to_excel true [some pageA] true (py "a.pdf") none
      = ⟨some (excelPathFor (py "a.pdf") none), true⟩ :=
  ⟨c8_abort_outcomes.1 [] true (py "a.pdf") none rfl,
   c8_abort_outcomes.2.1 [some pageA] (py "a.pdf") none (by decide),
   c8_abort_outcomes.2.2 [some pageA] (py "a.pdf") none (by decide)⟩
